import Mathlib

/-!
Verification development for the `sse-2` GraphQL subscription sidecar
(`src/server/http.ts` and `src/subscription/execution-cache.ts`).

The TypeScript sources are shallowly embedded as Lean functions:

* the execution-deduplication cache (`generateCacheKey`,
  `normalizeUserContext`, `executeWithDeduplication`, `executeAndCache`);
* the subscription validator (`validateSubscription`) and the SSE request
  pipeline (`processSSESubscription`);
* the webhook ingestion gate (`validateWebhookSignature`,
  `handleWebhookEvent`).

JavaScript strings are modelled as Lean `String`/`List Char` (the sources
only manipulate well-formed text, so surrogate issues do not arise), JS
numbers occurring as user ids / JSON numbers as `Int` (floats are not
exercised by the verified properties), and `JSON.stringify` as an explicit
character-level serializer.  Library primitives that are external to the
repository (SHA-256/HMAC digests, `JSON.parse`) are taken as function
parameters, so every theorem is quantified over their behaviour.
-/

/-! ## JS string ordering (default `Array.prototype.sort` comparator)

The default JS sort comparator compares strings by their code units.  We
model it as the lexicographic order on the code points of the characters;
for the strings handled by this gateway (role and capability slugs) the two
coincide. -/

/-- Lexicographic strict comparison of char lists by code point. -/
def ltCharsB : List Char → List Char → Bool
  | [], [] => false
  | [], _ :: _ => true
  | _ :: _, [] => false
  | a :: as, b :: bs =>
    if a.toNat < b.toNat then true
    else if a.toNat = b.toNat then ltCharsB as bs
    else false

/-- Non-strict string order used to model the default JS sort. -/
def leStr (a b : String) : Prop := ltCharsB b.data a.data = false

instance : DecidableRel leStr := fun a b => by unfold leStr; infer_instance

theorem ltCharsB_irrefl (l : List Char) : ltCharsB l l = false := by
  induction l with
  | nil => rfl
  | cons c t ih => simp [ltCharsB, ih]

theorem charEq_of_toNat {a b : Char} (h : a.toNat = b.toNat) : a = b :=
  Char.ext (UInt32.ext h)

theorem ltCharsB_asymm (a b : List Char) (h1 : ltCharsB a b = false)
    (h2 : ltCharsB b a = false) : a = b := by
  induction a generalizing b with
  | nil =>
    cases b with
    | nil => rfl
    | cons c t => simp [ltCharsB] at h1
  | cons c t ih =>
    cases b with
    | nil => simp [ltCharsB] at h2
    | cons d u =>
      simp [ltCharsB] at h1 h2
      have heq : c.toNat = d.toNat := by omega
      have hcd : c = d := charEq_of_toNat heq
      subst hcd
      have := ih u (h1.2 heq) (h2.2 heq.symm)
      rw [this]

theorem ltCharsB_false_total (a b : List Char) :
    ltCharsB a b = false ∨ ltCharsB b a = false := by
  induction a generalizing b with
  | nil =>
    cases b with
    | nil => exact Or.inl rfl
    | cons d u => exact Or.inr rfl
  | cons c t ih =>
    cases b with
    | nil => exact Or.inl rfl
    | cons d u =>
      rcases Nat.lt_trichotomy c.toNat d.toNat with h | h | h
      · refine Or.inr ?_
        simp [ltCharsB]
        omega
      · rcases ih u with hl | hl
        · refine Or.inl ?_
          simp [ltCharsB]
          exact ⟨by omega, fun _ => hl⟩
        · refine Or.inr ?_
          simp [ltCharsB]
          exact ⟨by omega, fun _ => hl⟩
      · refine Or.inl ?_
        simp [ltCharsB]
        omega

instance : IsTotal String leStr :=
  ⟨fun a b => (ltCharsB_false_total b.data a.data).imp (fun h => h) (fun h => h)⟩

theorem ltCharsB_trans_false (a b c : List Char) (h1 : ltCharsB b a = false)
    (h2 : ltCharsB c b = false) : ltCharsB c a = false := by
  induction a generalizing b c with
  | nil => cases c <;> rfl
  | cons ac at' ih =>
    cases c with
    | nil =>
      cases b with
      | nil => simp [ltCharsB] at h1
      | cons bc bt => simp [ltCharsB] at h2
    | cons cc ct =>
      cases b with
      | nil => simp [ltCharsB] at h1
      | cons bc bt =>
        simp [ltCharsB] at h1 h2 ⊢
        constructor
        · omega
        · intro hca
          have hba : bc.toNat = ac.toNat := by omega
          have hcb : cc.toNat = bc.toNat := by omega
          exact ih bt ct (h1.2 hba) (h2.2 hcb)

instance : IsTrans String leStr :=
  ⟨fun a b c h1 h2 => ltCharsB_trans_false a.data b.data c.data h1 h2⟩

theorem stringExt {a b : String} (h : a.data = b.data) : a = b := by
  cases a; cases b; exact congrArg String.mk h

instance : IsAntisymm String leStr :=
  ⟨fun a b h1 h2 => stringExt (ltCharsB_asymm a.data b.data h2 h1)⟩

/-- Model of the default JS `Array.prototype.sort` on string arrays: a
sort with respect to the code-unit comparator. -/
def sortStrings (l : List String) : List String := List.insertionSort leStr l

/-- Sorting is invariant under permutation of the input: the sorted list
depends only on the multiset of elements. -/
theorem sortStrings_perm_invariant {l1 l2 : List String} (h : l1.Perm l2) :
    sortStrings l1 = sortStrings l2 := by
  refine List.eq_of_perm_of_sorted ?_ (List.sorted_insertionSort _ _)
    (List.sorted_insertionSort _ _)
  exact (List.perm_insertionSort _ l1).trans (h.trans (List.perm_insertionSort _ l2).symm)

/-! ## Decimal and hexadecimal digits -/

/-- Decimal digit character (defined by cases so that it reduces in the
kernel). -/
def digitC : Nat → Char
  | 0 => '0' | 1 => '1' | 2 => '2' | 3 => '3' | 4 => '4'
  | 5 => '5' | 6 => '6' | 7 => '7' | 8 => '8' | _ => '9'

/-- Lowercase hexadecimal digit character, as produced by Node
`digest('hex')`. -/
def hexDigitC : Nat → Char
  | 0 => '0' | 1 => '1' | 2 => '2' | 3 => '3' | 4 => '4'
  | 5 => '5' | 6 => '6' | 7 => '7' | 8 => '8' | 9 => '9'
  | 10 => 'a' | 11 => 'b' | 12 => 'c' | 13 => 'd' | 14 => 'e' | _ => 'f'

/-- Hexadecimal digit value of a character; both letter cases are
accepted, as by Node `Buffer.from(_, 'hex')`. -/
def fromHexDigit (c : Char) : Option Nat :=
  if 48 ≤ c.toNat && c.toNat ≤ 57 then some (c.toNat - 48)
  else if 97 ≤ c.toNat && c.toNat ≤ 102 then some (c.toNat - 87)
  else if 65 ≤ c.toNat && c.toNat ≤ 70 then some (c.toNat - 55)
  else none

theorem fromHexDigit_zero : fromHexDigit '0' = some 0 := by decide

theorem fromHexDigit_hexDigitC {x : Nat} (h : x < 16) :
    fromHexDigit (hexDigitC x) = some x := by
  interval_cases x <;> decide

theorem digitC_isDigit {d : Nat} (h : d < 10) : (digitC d).isDigit = true := by
  interval_cases d <;> rfl

theorem digitC_toNat {d : Nat} (h : d < 10) : (digitC d).toNat = 48 + d := by
  interval_cases d <;> rfl

/-! ## JSON string escaping, as performed by `JSON.stringify` -/

/-- Escape of a single character inside a JSON string literal, following
the `QuoteJSONString` algorithm used by `JSON.stringify`. -/
def escChar (c : Char) : List Char :=
  if c = '"' then ['\\', '"']
  else if c = '\\' then ['\\', '\\']
  else if c = '\n' then ['\\', 'n']
  else if c = '\r' then ['\\', 'r']
  else if c = '\t' then ['\\', 't']
  else if c.toNat = 8 then ['\\', 'b']
  else if c.toNat = 12 then ['\\', 'f']
  else if c.toNat < 32 then
    ['\\', 'u', '0', '0', hexDigitC (c.toNat / 16), hexDigitC (c.toNat % 16)]
  else [c]

/-- Inverse of the two-character escapes. -/
def unescChar : Char → Option Char
  | '"' => some '"'
  | '\\' => some '\\'
  | 'n' => some '\n'
  | 'r' => some '\r'
  | 't' => some '\t'
  | 'b' => some '\x08'
  | 'f' => some '\x0c'
  | _ => none

/-- Parser for the body of a JSON string literal (everything after the
opening quote, up to and including the closing quote).  Returns the decoded
characters together with the unconsumed remainder.  Used only to prove that
the escaping is injective. -/
def parseJStr : List Char → Option (List Char × List Char)
  | [] => none
  | '"' :: rest => some ([], rest)
  | '\\' :: 'u' :: h1 :: h2 :: h3 :: h4 :: rest =>
    match fromHexDigit h1, fromHexDigit h2, fromHexDigit h3, fromHexDigit h4 with
    | some a, some b, some x, some y =>
      (parseJStr rest).map
        (fun p => (Char.ofNat (((a * 16 + b) * 16 + x) * 16 + y) :: p.1, p.2))
    | _, _, _, _ => none
  | '\\' :: e :: rest =>
    match unescChar e with
    | some u => (parseJStr rest).map (fun p => (u :: p.1, p.2))
    | none => none
  | '\\' :: [] => none
  | c :: rest => (parseJStr rest).map (fun p => (c :: p.1, p.2))

/-- Round trip: parsing the escape of `s` recovers `s` and the remainder. -/
theorem parseJStr_escape (s : List Char) (r : List Char) :
    parseJStr (s.flatMap escChar ++ '"' :: r) = some (s, r) := by
  induction s with
  | nil => simp [parseJStr]
  | cons c t ih =>
    have hshape : (c :: t).flatMap escChar ++ '"' :: r
        = escChar c ++ (t.flatMap escChar ++ '"' :: r) := by
      simp [List.flatMap_cons, List.append_assoc]
    rw [hshape]
    by_cases h1 : c = '"'
    · subst h1; simp [escChar, parseJStr, unescChar, ih]
    by_cases h2 : c = '\\'
    · subst h2; simp [escChar, parseJStr, unescChar, ih]
    by_cases h3 : c = '\n'
    · subst h3; simp [escChar, parseJStr, unescChar, ih]
    by_cases h4 : c = '\r'
    · subst h4; simp [escChar, parseJStr, unescChar, ih]
    by_cases h5 : c = '\t'
    · subst h5; simp [escChar, parseJStr, unescChar, ih]
    by_cases h6 : c.toNat = 8
    · have hc : c = '\x08' := charEq_of_toNat (by simpa using h6)
      subst hc; simp [escChar, parseJStr, unescChar, ih]
    by_cases h7 : c.toNat = 12
    · have hc : c = '\x0c' := charEq_of_toNat (by simpa using h7)
      subst hc; simp [escChar, parseJStr, unescChar, ih]
    by_cases h8 : c.toNat < 32
    · have hd1 : c.toNat / 16 < 16 := by omega
      have hd2 : c.toNat % 16 < 16 := by omega
      simp only [escChar, if_neg h1, if_neg h2, if_neg h3, if_neg h4, if_neg h5,
        if_neg h6, if_neg h7, if_pos h8, List.cons_append, List.nil_append]
      simp only [parseJStr, fromHexDigit_hexDigitC hd1, fromHexDigit_hexDigitC hd2, ih,
        Option.map_some]
      have harith : c.toNat / 16 * 16 + c.toNat % 16 = c.toNat := by omega
      simp [fromHexDigit_zero, harith, Char.ofNat_toNat]
    · simp only [escChar, if_neg h1, if_neg h2, if_neg h3, if_neg h4, if_neg h5,
        if_neg h6, if_neg h7, if_neg h8, List.cons_append, List.nil_append]
      simp [parseJStr, h1, h2, ih]

/-! ## Decimal rendering of numbers, as performed by `JSON.stringify` and
JS template-string interpolation -/

/-- Decimal digits of a natural number, most significant first. -/
def natChars (n : Nat) : List Char :=
  if h : n < 10 then [digitC n]
  else natChars (n / 10) ++ [digitC (n % 10)]
termination_by n
decreasing_by exact Nat.div_lt_self (by omega) (by omega)

/-- Total parser consuming a maximal run of decimal digits into an
accumulator. -/
def parseNatAux : Nat → List Char → Nat × List Char
  | acc, [] => (acc, [])
  | acc, c :: t =>
    if c.isDigit then parseNatAux (acc * 10 + (c.toNat - 48)) t else (acc, c :: t)

theorem parseNatAux_natChars (n : Nat) : ∀ acc r,
    parseNatAux acc (natChars n ++ r)
      = parseNatAux (acc * 10 ^ (natChars n).length + n) r := by
  induction n using Nat.strong_induction_on with
  | _ n ih =>
    intro acc r
    by_cases h : n < 10
    · rw [natChars]
      simp [h, parseNatAux, digitC_isDigit h, digitC_toNat h]
    · rw [natChars]
      simp only [h, dite_false, List.append_assoc, List.cons_append, List.nil_append]
      rw [ih (n / 10) (Nat.div_lt_self (by omega) (by omega))]
      have h10 : n % 10 < 10 := Nat.mod_lt _ (by omega)
      simp only [parseNatAux, digitC_isDigit h10, if_pos, digitC_toNat h10,
        List.length_append, List.length_cons, List.length_nil]
      have harith : (acc * 10 ^ (natChars (n / 10)).length + n / 10) * 10 + (48 + n % 10 - 48)
          = acc * 10 ^ ((natChars (n / 10)).length + (0 + 1)) + n := by
        rw [pow_succ]
        have hdm := Nat.div_add_mod n 10
        generalize (10 : Nat) ^ (natChars (n / 10)).length = A
        have : acc * (A * 10) = acc * A * 10 := by ring
        omega
      rw [harith]

theorem natChars_head : ∀ n, ∃ c t, natChars n = c :: t ∧ c.isDigit = true := by
  intro n
  induction n using Nat.strong_induction_on with
  | _ n ih =>
    by_cases h : n < 10
    · exact ⟨digitC n, [], by rw [natChars]; simp [h], digitC_isDigit h⟩
    · obtain ⟨c, t, hct, hd⟩ := ih (n / 10) (Nat.div_lt_self (by omega) (by omega))
      refine ⟨c, t ++ [digitC (n % 10)], ?_, hd⟩
      rw [natChars]
      simp [h, hct]

theorem isDigit_ne {c d : Char} (h1 : c.isDigit = true) (h2 : d.isDigit = false) :
    c ≠ d := by
  intro heq
  subst heq
  rw [h1] at h2
  exact absurd h2 (by simp)

/-- Cancellation for decimal numerals followed by a non-digit separator. -/
theorem natChars_cancel {sep : Char} (hsep : sep.isDigit = false)
    {n1 n2 : Nat} {r1 r2 : List Char}
    (h : natChars n1 ++ sep :: r1 = natChars n2 ++ sep :: r2) :
    n1 = n2 ∧ r1 = r2 := by
  have hp := congrArg (parseNatAux 0) h
  rw [parseNatAux_natChars, parseNatAux_natChars] at hp
  simp only [Nat.zero_mul, Nat.zero_add] at hp
  rw [show parseNatAux n1 (sep :: r1) = (n1, sep :: r1) by simp [parseNatAux, hsep],
      show parseNatAux n2 (sep :: r2) = (n2, sep :: r2) by simp [parseNatAux, hsep]] at hp
  obtain ⟨hn, hr⟩ := Prod.mk.injEq .. ▸ hp
  exact ⟨hn, by injection Prod.mk.inj hp |>.2⟩

/-- Decimal rendering of a JS number that is an integer (as produced by
`JSON.stringify` and template interpolation). -/
def intChars (i : Int) : List Char :=
  if i < 0 then '-' :: natChars (-i).toNat else natChars i.toNat

theorem intChars_cancel {sep : Char} (hsep : sep.isDigit = false)
    {i1 i2 : Int} {r1 r2 : List Char}
    (h : intChars i1 ++ sep :: r1 = intChars i2 ++ sep :: r2) :
    i1 = i2 ∧ r1 = r2 := by
  have hminus : ('-').isDigit = false := by decide
  unfold intChars at h
  by_cases h1 : i1 < 0 <;> by_cases h2 : i2 < 0
  · simp only [if_pos h1, if_pos h2, List.cons_append, List.cons.injEq, true_and] at h
    obtain ⟨hn, hr⟩ := natChars_cancel hsep h
    exact ⟨by omega, hr⟩
  · simp only [if_pos h1, if_neg h2, List.cons_append] at h
    obtain ⟨c, t, hct, hd⟩ := natChars_head i2.toNat
    rw [hct] at h
    exact absurd (List.cons.inj h).1.symm (isDigit_ne hd hminus)
  · simp only [if_neg h1, if_pos h2, List.cons_append] at h
    obtain ⟨c, t, hct, hd⟩ := natChars_head i1.toNat
    rw [hct] at h
    exact absurd (List.cons.inj h).1 (isDigit_ne hd hminus)
  · simp only [if_neg h1, if_neg h2] at h
    obtain ⟨hn, hr⟩ := natChars_cancel hsep h
    exact ⟨by omega, hr⟩

/-! ## JSON serialization of strings, string arrays and booleans -/

/-- JSON string literal for `s`, quotes included. -/
def encJStr (s : String) : List Char := '"' :: (s.data.flatMap escChar ++ ['"'])

theorem encJStr_append (s : String) (r : List Char) :
    encJStr s ++ r = '"' :: (s.data.flatMap escChar ++ '"' :: r) := by
  simp [encJStr]

theorem encJStr_cancel {s1 s2 : String} {r1 r2 : List Char}
    (h : encJStr s1 ++ r1 = encJStr s2 ++ r2) : s1 = s2 ∧ r1 = r2 := by
  rw [encJStr_append, encJStr_append] at h
  have h2 := (List.cons.inj h).2
  have hp := congrArg parseJStr h2
  rw [parseJStr_escape, parseJStr_escape] at hp
  have hpair := Option.some.inj hp
  exact ⟨stringExt (congrArg Prod.fst hpair), congrArg Prod.snd hpair⟩

/-- Comma-separated items of a JSON array of strings (the result of
`Array.prototype.join` inside `JSON.stringify`). -/
def encArrItems : List String → List Char
  | [] => []
  | [s] => encJStr s
  | s :: t => encJStr s ++ ',' :: encArrItems t

/-- JSON array of strings, brackets included. -/
def encArr (l : List String) : List Char := '[' :: (encArrItems l ++ [']'])

theorem encArr_append (l : List String) (r : List Char) :
    encArr l ++ r = '[' :: (encArrItems l ++ ']' :: r) := by
  simp [encArr]

theorem encArrItems_cancel : ∀ (l1 l2 : List String) (r1 r2 : List Char),
    encArrItems l1 ++ ']' :: r1 = encArrItems l2 ++ ']' :: r2 →
    l1 = l2 ∧ r1 = r2 := by
  intro l1
  induction l1 with
  | nil =>
    intro l2 r1 r2 h
    cases l2 with
    | nil => simpa [encArrItems] using h
    | cons s2 t2 =>
      exfalso
      cases t2 with
      | nil =>
        simp only [encArrItems, List.nil_append, encJStr_append] at h
        exact absurd (List.cons.inj h).1 (by decide)
      | cons x y =>
        simp only [encArrItems, List.nil_append, List.append_assoc,
          encJStr_append] at h
        exact absurd (List.cons.inj h).1 (by decide)
  | cons s1 t1 ih =>
    intro l2 r1 r2 h
    cases l2 with
    | nil =>
      exfalso
      cases t1 with
      | nil =>
        simp only [encArrItems, List.nil_append, encJStr_append] at h
        exact absurd (List.cons.inj h).1 (by decide)
      | cons x y =>
        simp only [encArrItems, List.nil_append, List.append_assoc,
          encJStr_append] at h
        exact absurd (List.cons.inj h).1 (by decide)
    | cons s2 t2 =>
      cases t1 with
      | nil =>
        cases t2 with
        | nil =>
          simp only [encArrItems] at h
          obtain ⟨hs, hr⟩ := encJStr_cancel h
          exact ⟨by rw [hs], by injection hr⟩
        | cons x2 y2 =>
          simp only [encArrItems, List.append_assoc, List.cons_append] at h
          obtain ⟨hs, hr⟩ := encJStr_cancel h
          exact absurd (List.cons.inj hr).1 (by decide)
      | cons x1 y1 =>
        cases t2 with
        | nil =>
          simp only [encArrItems, List.append_assoc, List.cons_append] at h
          obtain ⟨hs, hr⟩ := encJStr_cancel h
          exact absurd (List.cons.inj hr).1 (by decide)
        | cons x2 y2 =>
          simp only [encArrItems, List.append_assoc, List.cons_append] at h
          obtain ⟨hs, hr⟩ := encJStr_cancel h
          have hr2 := (List.cons.inj hr).2
          obtain ⟨ht, hrr⟩ := ih (x2 :: y2) r1 r2 (by simpa [List.append_assoc] using hr2)
          exact ⟨by rw [hs, ht], hrr⟩

theorem encArr_cancel {l1 l2 : List String} {r1 r2 : List Char}
    (h : encArr l1 ++ r1 = encArr l2 ++ r2) : l1 = l2 ∧ r1 = r2 := by
  rw [encArr_append, encArr_append] at h
  exact encArrItems_cancel l1 l2 r1 r2 (List.cons.inj h).2

/-! ## Serialization of the normalized user context

`normalizeUserContext` (execution-cache.ts, lines 109-120) returns either
the literal object `\x7b isAuthenticated: false \x7d` (when no user context
was attached to the subscription) or an object with the four fields
`userId`, `userRoles`, `capabilities`, `isAuthenticated` in that insertion
order.  `JSON.stringify` serializes object fields in insertion order, so
the serialized forms are fixed-shape and modelled below. -/

/-- Characters of the JSON literal `null`. -/
def nullChars : List Char := ['n', 'u', 'l', 'l']

/-- Serialized form of `true` and `false`. -/
def encBool (b : Bool) : List Char :=
  if b then ['t', 'r', 'u', 'e'] else ['f', 'a', 'l', 's', 'e']

/-- Normalized `userId` field value: `null` (for a missing or falsy id) or
the original string or integral number. -/
def encUserId : Option (String ⊕ Int) → List Char
  | none => nullChars
  | some (.inl s) => encJStr s
  | some (.inr i) => intChars i

theorem encBool_brace_cancel {b1 b2 : Bool} {r1 r2 : List Char}
    (h : encBool b1 ++ '\x7d' :: r1 = encBool b2 ++ '\x7d' :: r2) :
    b1 = b2 ∧ r1 = r2 := by
  cases b1 <;> cases b2 <;> simpa [encBool] using h

theorem encUserId_cancel {u1 u2 : Option (String ⊕ Int)} {r1 r2 : List Char}
    (h : encUserId u1 ++ ',' :: r1 = encUserId u2 ++ ',' :: r2) :
    u1 = u2 ∧ r1 = r2 := by
  have hcomma : (',').isDigit = false := by decide
  match u1, u2 with
  | none, none =>
    simpa [encUserId, nullChars] using h
  | none, some (.inl s) =>
    rw [encUserId, encUserId, encJStr_append] at h
    exact absurd (List.cons.inj h).1 (by decide)
  | none, some (.inr i) =>
    rw [encUserId, encUserId] at h
    obtain ⟨c, t, hct, hd⟩ := natChars_head i.toNat
    by_cases hneg : i < 0
    · simp only [intChars, if_pos hneg] at h
      exact absurd (List.cons.inj h).1 (by decide)
    · simp only [intChars, if_neg hneg, hct] at h
      exact absurd ((List.cons.inj h).1.symm) (isDigit_ne hd (by decide))
  | some (.inl s), none =>
    rw [encUserId, encUserId, encJStr_append] at h
    exact absurd (List.cons.inj h).1 (by decide)
  | some (.inl s1), some (.inl s2) =>
    rw [encUserId, encUserId] at h
    obtain ⟨hs, hr⟩ := encJStr_cancel h
    exact ⟨by rw [hs], by injection hr⟩
  | some (.inl s), some (.inr i) =>
    rw [encUserId, encUserId, encJStr_append] at h
    obtain ⟨c, t, hct, hd⟩ := natChars_head i.toNat
    by_cases hneg : i < 0
    · simp only [intChars, if_pos hneg] at h
      exact absurd (List.cons.inj h).1 (by decide)
    · simp only [intChars, if_neg hneg, hct] at h
      exact absurd (List.cons.inj h).1 (isDigit_ne hd (by decide)).symm
  | some (.inr i), none =>
    rw [encUserId, encUserId] at h
    obtain ⟨c, t, hct, hd⟩ := natChars_head i.toNat
    by_cases hneg : i < 0
    · simp only [intChars, if_pos hneg] at h
      exact absurd (List.cons.inj h).1 (by decide)
    · simp only [intChars, if_neg hneg, hct] at h
      exact absurd ((List.cons.inj h).1) (isDigit_ne hd (by decide))
  | some (.inr i), some (.inl s) =>
    rw [encUserId, encUserId, encJStr_append] at h
    obtain ⟨c, t, hct, hd⟩ := natChars_head i.toNat
    by_cases hneg : i < 0
    · simp only [intChars, if_pos hneg] at h
      exact absurd (List.cons.inj h).1 (by decide)
    · simp only [intChars, if_neg hneg, hct] at h
      exact absurd (List.cons.inj h).1 (isDigit_ne hd (by decide))
  | some (.inr i1), some (.inr i2) =>
    rw [encUserId, encUserId] at h
    obtain ⟨hi, hr⟩ := intChars_cancel hcomma h
    exact ⟨by rw [hi], hr⟩

/-- Result of `normalizeUserContext`: either the one-field object produced
for an absent context, or the four normalized fields. -/
inductive NormCtx where
  | absent : NormCtx
  | ctx (userId : Option (String ⊕ Int)) (userRoles : List String)
      (capabilities : List String) (isAuthenticated : Bool) : NormCtx
deriving DecidableEq

/-- Serialization of `\x7b "isAuthenticated": false \x7d` with the exact
spacing `JSON.stringify` produces. -/
def absentCtxChars : List Char :=
  '\x7b' :: '"' :: 'i' :: 's' :: 'A' :: 'u' :: 't' :: 'h' :: 'e' :: 'n' :: 't' ::
  'i' :: 'c' :: 'a' :: 't' :: 'e' :: 'd' :: '"' :: ':' :: 'f' :: 'a' :: 'l' ::
  's' :: 'e' :: '\x7d' :: []

/-- Opening of the four-field context object up to the `userId` value. -/
def keyUserIdChars : List Char :=
  '\x7b' :: '"' :: 'u' :: 's' :: 'e' :: 'r' :: 'I' :: 'd' :: '"' :: ':' :: []

/-- Separator between the `userId` value and the `userRoles` value. -/
def keyRolesChars : List Char :=
  ',' :: '"' :: 'u' :: 's' :: 'e' :: 'r' :: 'R' :: 'o' :: 'l' :: 'e' :: 's' ::
  '"' :: ':' :: []

/-- Separator between the `userRoles` value and the `capabilities` value. -/
def keyCapsChars : List Char :=
  ',' :: '"' :: 'c' :: 'a' :: 'p' :: 'a' :: 'b' :: 'i' :: 'l' :: 'i' :: 't' ::
  'i' :: 'e' :: 's' :: '"' :: ':' :: []

/-- Separator between the `capabilities` value and the `isAuthenticated`
value. -/
def keyAuthChars : List Char :=
  ',' :: '"' :: 'i' :: 's' :: 'A' :: 'u' :: 't' :: 'h' :: 'e' :: 'n' :: 't' ::
  'i' :: 'c' :: 'a' :: 't' :: 'e' :: 'd' :: '"' :: ':' :: []

/-- Serialization by `JSON.stringify` of the value returned by
`normalizeUserContext`. -/
def encodeNormCtx : NormCtx → List Char
  | .absent => absentCtxChars
  | .ctx uid roles caps auth =>
    keyUserIdChars ++ encUserId uid ++ keyRolesChars ++ encArr roles ++
    keyCapsChars ++ encArr caps ++ keyAuthChars ++ encBool auth ++ ['\x7d']

/-- Injectivity (with arbitrary continuations) of the serialized
normalized user context: distinct normalized contexts give distinct JSON
fragments. -/
theorem encodeNormCtx_cancel : ∀ (u1 u2 : NormCtx) (r1 r2 : List Char),
    encodeNormCtx u1 ++ r1 = encodeNormCtx u2 ++ r2 → u1 = u2 ∧ r1 = r2 := by
  intro u1 u2 r1 r2 h
  match u1, u2 with
  | .absent, .absent =>
    refine ⟨rfl, ?_⟩
    simpa [encodeNormCtx, absentCtxChars] using h
  | .absent, .ctx uid roles caps auth =>
    exfalso
    simp only [encodeNormCtx, absentCtxChars, keyUserIdChars, List.append_assoc,
      List.cons_append, List.nil_append, List.cons.injEq] at h
    exact absurd h.2.2.1 (by decide)
  | .ctx uid roles caps auth, .absent =>
    exfalso
    simp only [encodeNormCtx, absentCtxChars, keyUserIdChars, List.append_assoc,
      List.cons_append, List.nil_append, List.cons.injEq] at h
    exact absurd h.2.2.1 (by decide)
  | .ctx uid1 roles1 caps1 auth1, .ctx uid2 roles2 caps2 auth2 =>
    simp only [encodeNormCtx, keyUserIdChars, keyRolesChars, keyCapsChars,
      keyAuthChars, List.append_assoc, List.cons_append, List.nil_append,
      List.cons.injEq, true_and] at h
    obtain ⟨huid, h⟩ := encUserId_cancel h
    simp only [List.cons.injEq, true_and] at h
    obtain ⟨hroles, h⟩ := encArr_cancel h
    simp only [List.cons.injEq, true_and] at h
    obtain ⟨hcaps, h⟩ := encArr_cancel h
    simp only [List.cons.injEq, true_and] at h
    obtain ⟨hauth, h⟩ := encBool_brace_cancel h
    exact ⟨by rw [huid, hroles, hcaps, hauth], h⟩

/-! ## JSON values (the `variables` field)

`CacheableSubscription.variables` is a `Record<string, any>`; its values are
arbitrary JSON trees.  The model restricts JSON numbers to integers (the
repository only sends ids and timestamps). -/

mutual
inductive JVal where
  | jnull : JVal
  | jbool (b : Bool) : JVal
  | jnum (i : Int) : JVal
  | jstr (s : String) : JVal
  | jarr (a : JArr) : JVal
  | jobj (o : JObj) : JVal
inductive JArr where
  | nil : JArr
  | cons (v : JVal) (t : JArr) : JArr
inductive JObj where
  | nil : JObj
  | cons (k : String) (v : JVal) (t : JObj) : JObj
end

mutual
/-- Serialization of a JSON value by `JSON.stringify`. -/
def encJVal : JVal → List Char
  | .jnull => nullChars
  | .jbool b => encBool b
  | .jnum i => intChars i
  | .jstr s => encJStr s
  | .jarr a => '[' :: (encJArrItems a ++ [']'])
  | .jobj o => '\x7b' :: (encJObjItems o ++ ['\x7d'])
/-- Comma-separated array items. -/
def encJArrItems : JArr → List Char
  | .nil => []
  | .cons v .nil => encJVal v
  | .cons v t => encJVal v ++ ',' :: encJArrItems t
/-- Comma-separated `"key":value` object items, in insertion order. -/
def encJObjItems : JObj → List Char
  | .nil => []
  | .cons k v .nil => encJStr k ++ ':' :: encJVal v
  | .cons k v t => encJStr k ++ ':' :: encJVal v ++ ',' :: encJObjItems t
end

/-! ## The execution-cache data model (execution-cache.ts) -/

/-- User context attached to a `CacheableSubscription` (execution-cache.ts,
lines 38-43).  A JS `userId` may be a string or a number; a missing field is
`none`. -/
structure UserContext where
  userId : Option (String ⊕ Int) := none
  userRoles : Option (List String) := none
  capabilities : Option (List String) := none
  isAuthenticated : Bool := false
deriving DecidableEq

/-- Model of `CacheableSubscription` (execution-cache.ts, lines 34-44).
The `vars` field models the `variables` record (that identifier is reserved
in Lean). -/
structure CacheableSubscription where
  query : String
  vars : Option JObj := none
  operationName : Option String := none
  userContext : Option UserContext := none

/-- JS truthiness collapse performed by `userContext.userId || null` (and
`userId || 'auth'`): the empty string and the number 0 are falsy and are
replaced by the fallback, like a missing id. -/
def jsFalsyId : Option (String ⊕ Int) → Option (String ⊕ Int)
  | some (.inl s) => if s = "" then none else some (.inl s)
  | some (.inr i) => if i = 0 then none else some (.inr i)
  | none => none

/-- Model of `normalizeUserContext` (execution-cache.ts, lines 109-120):
missing context becomes the one-field object; otherwise the id is
falsy-collapsed to `null`, the role and capability arrays default to `[]`
and are sorted (`[...].sort()`), and the authentication flag is kept. -/
def normalizeUserContext : Option UserContext → NormCtx
  | none => .absent
  | some u =>
    .ctx (jsFalsyId u.userId)
      (sortStrings (u.userRoles.getD []))
      (sortStrings (u.capabilities.getD []))
      u.isAuthenticated

/-! ## Query whitespace normalization (`query.replace(/\s+/g, ' ').trim()`) -/

/-- ASCII whitespace recognized by the JS `\s` class (the Unicode space
characters are not exercised by this repository). -/
def isJSWS (c : Char) : Bool :=
  c = ' ' || c = '\t' || c = '\n' || c = '\r' || c = '\x0b' || c = '\x0c'

/-- Replace every maximal whitespace run by a single space; the flag records
whether the previous character was whitespace. -/
def collapseWSAux : Bool → List Char → List Char
  | _, [] => []
  | prevWS, c :: t =>
    if isJSWS c then
      if prevWS then collapseWSAux true t else ' ' :: collapseWSAux true t
    else c :: collapseWSAux false t

/-- Strip leading and trailing spaces (after collapsing, the only whitespace
left is the space character). -/
def trimSpaces (l : List Char) : List Char :=
  ((l.dropWhile (fun c => c = ' ')).reverse.dropWhile (fun c => c = ' ')).reverse

/-- Model of `query.replace(/\s+/g, ' ').trim()` from `generateCacheKey`. -/
def normWSChars (l : List Char) : List Char := trimSpaces (collapseWSAux false l)

/-! ## Cache-key generation (execution-cache.ts, lines 84-104) -/

/-- Fixed serialized fragments of the cache-key payload object
`\x7b query, variables, operationName, userContext \x7d` in its insertion
order. -/
def payloadQueryChars : List Char :=
  '\x7b' :: '"' :: 'q' :: 'u' :: 'e' :: 'r' :: 'y' :: '"' :: ':' :: []

/-- Separator before the `variables` field value. -/
def payloadVarsChars : List Char :=
  ',' :: '"' :: 'v' :: 'a' :: 'r' :: 'i' :: 'a' :: 'b' :: 'l' :: 'e' :: 's' ::
  '"' :: ':' :: []

/-- Separator before the `operationName` field value. -/
def payloadOpNameChars : List Char :=
  ',' :: '"' :: 'o' :: 'p' :: 'e' :: 'r' :: 'a' :: 't' :: 'i' :: 'o' :: 'n' ::
  'N' :: 'a' :: 'm' :: 'e' :: '"' :: ':' :: []

/-- Separator before the `userContext` field value. -/
def payloadCtxChars : List Char :=
  ',' :: '"' :: 'u' :: 's' :: 'e' :: 'r' :: 'C' :: 'o' :: 'n' :: 't' :: 'e' ::
  'x' :: 't' :: '"' :: ':' :: []

/-- Serialization of `subscription.operationName || null`: a missing or
empty name serializes as `null`. -/
def encOpName : Option String → List Char
  | none => nullChars
  | some s => if s = "" then nullChars else encJStr s

/-- Serialized payload up to (and including) the `"userContext":` key; this
part depends only on the query text, the variables and the operation name. -/
def payloadFront (sub : CacheableSubscription) : List Char :=
  payloadQueryChars ++ encJStr (String.mk (normWSChars sub.query.data)) ++
  payloadVarsChars ++ encJVal (.jobj (sub.vars.getD .nil)) ++
  payloadOpNameChars ++ encOpName sub.operationName ++ payloadCtxChars

/-- Serialized form of the object hashed by `generateCacheKey`
(`JSON.stringify(payload)` at execution-cache.ts line 94). -/
def payloadChars (sub : CacheableSubscription) : List Char :=
  payloadFront sub ++
    (encodeNormCtx (normalizeUserContext sub.userContext) ++ ['\x7d'])

/-- String form of the hashed payload. -/
def payloadString (sub : CacheableSubscription) : String :=
  String.mk (payloadChars sub)

/-- Human-readable user indicator appended to the cache key:
`u<id>` or `uauth` for an authenticated context, `anon` otherwise. -/
def userIndicatorChars (sub : CacheableSubscription) : List Char :=
  match sub.userContext with
  | some u =>
    if u.isAuthenticated then
      'u' :: (match jsFalsyId u.userId with
        | some (.inl s) => s.data
        | some (.inr i) => intChars i
        | none => ['a', 'u', 't', 'h'])
    else ['a', 'n', 'o', 'n']
  | none => ['a', 'n', 'o', 'n']

/-- Model of `generateCacheKey` (execution-cache.ts, lines 84-104).  The
`hash` parameter stands for the hex digest
`createHash('sha256').update(_).digest('hex')`; the code keeps its first 16
characters and appends `_` and the user indicator. -/
def generateCacheKey (hash : String → String) (sub : CacheableSubscription) :
    String :=
  String.mk ((hash (payloadString sub)).data.take 16 ++
    '_' :: userIndicatorChars sub)

/-! ## Claims C1 and C9: cache-key isolation and permutation invariance -/

theorem payloadChars_eq_iff_norm_eq (q : String) (v : Option JObj)
    (o : Option String) (c1 c2 : Option UserContext)
    (h : payloadChars ⟨q, v, o, c1⟩ = payloadChars ⟨q, v, o, c2⟩) :
    normalizeUserContext c1 = normalizeUserContext c2 := by
  unfold payloadChars at h
  have hpre : payloadFront ⟨q, v, o, c1⟩ = payloadFront ⟨q, v, o, c2⟩ := rfl
  rw [hpre] at h
  have h2 := List.append_right_injective (payloadFront ⟨q, v, o, c2⟩) h
  exact (encodeNormCtx_cancel _ _ _ _ h2).1

/-- C1 (amended): for identical query text, variables and operation name,
two user contexts whose normalized forms differ (differing authentication
flag, differing role or capability sets, or user ids that do not both
collapse to `null`) receive distinct cache keys, provided the (truncated)
hex digest is at least 16 characters long and does not collide on the two
payloads in question. -/
theorem generateCacheKey_userContext_isolation
    (hash : String → String) (q : String) (v : Option JObj) (o : Option String)
    (u1 u2 : UserContext)
    (hnorm : normalizeUserContext (some u1) ≠ normalizeUserContext (some u2))
    (hlen : ∀ s : String, 16 ≤ (hash s).data.length)
    (hcoll : (hash (payloadString ⟨q, v, o, some u1⟩)).data.take 16
        = (hash (payloadString ⟨q, v, o, some u2⟩)).data.take 16 →
        payloadString ⟨q, v, o, some u1⟩ = payloadString ⟨q, v, o, some u2⟩) :
    generateCacheKey hash ⟨q, v, o, some u1⟩
      ≠ generateCacheKey hash ⟨q, v, o, some u2⟩ := by
  intro hkey
  unfold generateCacheKey at hkey
  have hdata : (hash (payloadString ⟨q, v, o, some u1⟩)).data.take 16 ++
      '_' :: userIndicatorChars ⟨q, v, o, some u1⟩
      = (hash (payloadString ⟨q, v, o, some u2⟩)).data.take 16 ++
      '_' :: userIndicatorChars ⟨q, v, o, some u2⟩ :=
    congrArg String.data hkey
  have hl1 : ((hash (payloadString ⟨q, v, o, some u1⟩)).data.take 16).length = 16 := by
    rw [List.length_take]
    have := hlen (payloadString ⟨q, v, o, some u1⟩)
    omega
  have hl2 : ((hash (payloadString ⟨q, v, o, some u2⟩)).data.take 16).length = 16 := by
    rw [List.length_take]
    have := hlen (payloadString ⟨q, v, o, some u2⟩)
    omega
  obtain ⟨htrunc, -⟩ := List.append_inj hdata (hl1.trans hl2.symm)
  have hpay := hcoll htrunc
  have hchars : payloadChars ⟨q, v, o, some u1⟩ = payloadChars ⟨q, v, o, some u2⟩ :=
    congrArg String.data hpay
  exact hnorm (payloadChars_eq_iff_norm_eq q v o (some u1) (some u2) hchars)

/-- Injective hash used to instantiate the cache-key theorems: reverse the
payload and pad, so that its outputs are at least 16 characters long. -/
def revHash (s : String) : String :=
  String.mk (s.data.reverse ++ List.replicate 16 'x')

theorem revHash_len (s : String) : 16 ≤ (revHash s).data.length := by
  simp [revHash]

/-- Witness for C1: an anonymous and an authenticated context with the same
query receive distinct keys. -/
theorem generateCacheKey_userContext_isolation_witness :
    generateCacheKey revHash
        ⟨"subscription Q", none, none, some ⟨none, none, none, false⟩⟩
      ≠ generateCacheKey revHash
        ⟨"subscription Q", none, none, some ⟨none, none, none, true⟩⟩ :=
  generateCacheKey_userContext_isolation revHash "subscription Q" none none
    ⟨none, none, none, false⟩ ⟨none, none, none, true⟩
    (by decide) revHash_len (fun hpre => absurd hpre (by decide))

/-- C1 (counterexample to the claim as stated): two contexts that differ in
`userId` — the empty-string id versus the numeric id `0` — are collapsed to
the same normalized context by `userContext.userId || null`, so their cache
keys coincide for every digest function (shown here for the identity
digest). -/
theorem generateCacheKey_falsy_userid_collision :
    ((⟨some (.inl ""), none, none, true⟩ : UserContext)
        ≠ ⟨some (.inr 0), none, none, true⟩)
    ∧ (some (Sum.inl "") : Option (String ⊕ Int)) ≠ some (.inr 0)
    ∧ generateCacheKey (fun s => s)
        ⟨"subscription Q", none, none, some ⟨some (.inl ""), none, none, true⟩⟩
      = generateCacheKey (fun s => s)
        ⟨"subscription Q", none, none, some ⟨some (.inr 0), none, none, true⟩⟩ :=
  ⟨by decide, by decide, by decide⟩

/-- C9: the cache key is invariant under permutations of the role list and
of the capability list, for any digest function. -/
theorem generateCacheKey_perm_invariant
    (hash : String → String) (q : String) (v : Option JObj) (o : Option String)
    (uid : Option (String ⊕ Int)) (auth : Bool)
    (r1 r2 c1 c2 : Option (List String))
    (hr : (r1.getD []).Perm (r2.getD [])) (hc : (c1.getD []).Perm (c2.getD [])) :
    generateCacheKey hash ⟨q, v, o, some ⟨uid, r1, c1, auth⟩⟩
      = generateCacheKey hash ⟨q, v, o, some ⟨uid, r2, c2, auth⟩⟩ := by
  have hn : normalizeUserContext (some ⟨uid, r1, c1, auth⟩)
      = normalizeUserContext (some ⟨uid, r2, c2, auth⟩) := by
    simp only [normalizeUserContext]
    rw [sortStrings_perm_invariant hr, sortStrings_perm_invariant hc]
  simp only [generateCacheKey, payloadString, payloadChars]
  rw [show normalizeUserContext (some ⟨uid, r1, c1, auth⟩)
      = normalizeUserContext (some ⟨uid, r2, c2, auth⟩) from hn]
  rfl

/-- Witness for C9: reordering the role list leaves the key unchanged. -/
theorem generateCacheKey_perm_invariant_witness :
    generateCacheKey (fun s => s)
        ⟨"subscription Q", none, none,
          some ⟨some (.inl "7"), some ["editor", "admin"], some ["read"], true⟩⟩
      = generateCacheKey (fun s => s)
        ⟨"subscription Q", none, none,
          some ⟨some (.inl "7"), some ["admin", "editor"], some ["read"], true⟩⟩ :=
  generateCacheKey_perm_invariant (fun s => s) "subscription Q" none none
    (some (.inl "7")) true (some ["editor", "admin"]) (some ["admin", "editor"])
    (some ["read"]) (some ["read"]) (by decide) (by decide)

/-! ## Execution results and the cache maps (execution-cache.ts)

The two `Map`s of `SubscriptionExecutionCache` are modelled as association
lists with JS `Map.get`/`Map.set`/`Map.delete` semantics. -/

/-- GraphQL error carried in an `ExecutionResult`; `code` models
`extensions.code`. -/
structure ExecError where
  message : String
  code : Option String

/-- Model of `ExecutionResult` (execution-cache.ts, lines 46-50). -/
structure ExecutionResult where
  data : Option JVal
  errors : Option (List ExecError)
  timestamp : Int

/-- Map lookup. -/
def alookup {α : Type} (m : List (String × α)) (k : String) : Option α :=
  (m.find? (fun p => p.1 == k)).map (fun p => p.2)

/-- Map deletion. -/
def aerase {α : Type} (m : List (String × α)) (k : String) : List (String × α) :=
  m.filter (fun p => p.1 != k)

/-- Map update. -/
def aset {α : Type} (m : List (String × α)) (k : String) (v : α) :
    List (String × α) :=
  (k, v) :: aerase m k

theorem alookup_aset_self {α : Type} (m : List (String × α)) (k : String) (v : α) :
    alookup (aset m k v) k = some v := by
  simp [alookup, aset, List.find?]

/-- Cache and pending-execution state of `SubscriptionExecutionCache`
(execution-cache.ts, lines 61-62).  `nextId` numbers pending executions;
the `subscribers` sets of `PendingExecution`, which the source uses only
for logging, are elided. -/
structure CState where
  cache : List (String × ExecutionResult)
  pending : List (String × Nat)
  nextId : Nat

/-- Outcome of the synchronous prefix of `executeWithDeduplication`
(execution-cache.ts, lines 141-190): a fresh cached result is returned
immediately; otherwise the caller joins an in-flight execution; otherwise
it starts a new one (invoking the executor and registering the pending
entry in the same synchronous block). -/
inductive SyncOutcome where
  | cached (r : ExecutionResult)
  | joined (eid : Nat)
  | started (eid : Nat)

/-- Pending-map consultation shared by the hit-but-stale and miss branches. -/
def pendingPhase (st : CState) (key : String) : SyncOutcome × CState :=
  match alookup st.pending key with
  | some eid => (.joined eid, st)
  | none =>
    (.started st.nextId,
      ⟨st.cache, aset st.pending key st.nextId, st.nextId + 1⟩)

/-- Synchronous prefix of `executeWithDeduplication`: steps 1 (fresh cache
hit, line 143), 2 (join pending, lines 153-174) and the synchronous part of
step 3 (start new execution, lines 182-189). -/
def syncPhase (st : CState) (key : String) (now ttl : Int) :
    SyncOutcome × CState :=
  match alookup st.cache key with
  | some r =>
    if now - r.timestamp < ttl then (.cached r, st) else pendingPhase st key
  | none => pendingPhase st key

/-- Settled value produced by `executeAndCache` (execution-cache.ts, lines
209-251): a fulfilled executor result restamped with the execution start
time, or the `EXECUTION_ERROR` result built in the catch branch. -/
def settleResult (exec : Except String ExecutionResult) (startTime : Int) :
    ExecutionResult :=
  match exec with
  | .ok r => { r with timestamp := startTime }
  | .error msg =>
    ⟨none, some [⟨msg, some "EXECUTION_ERROR"⟩], startTime⟩

/-- The error result cached by the catch branch of `executeAndCache`. -/
def execErrorResult (msg : String) (startTime : Int) : ExecutionResult :=
  ⟨none, some [⟨msg, some "EXECUTION_ERROR"⟩], startTime⟩

/-- State change at settlement: `executeAndCache` stores the settled value
in the cache (lines 225 and 248) and the `finally` of
`executeWithDeduplication` removes the pending entry (line 202). -/
def settleState (st : CState) (key : String) (r : ExecutionResult) : CState :=
  ⟨aset st.cache key r, aerase st.pending key, st.nextId⟩

/-- Model of one call to `executeWithDeduplication` (execution-cache.ts,
lines 128-204) run to completion with no interleaved callers.  `exec` is
the outcome of `executor()`; `promiseVal` gives the settled value of the
promise of an already-pending execution.  Returns the result delivered to
the caller, the number of executor invocations made by this call, and the
final state. -/
def executeWithDeduplication (hash : String → String) (st : CState)
    (sub : CacheableSubscription) (now ttl : Int)
    (exec : Except String ExecutionResult)
    (promiseVal : Nat → ExecutionResult) :
    ExecutionResult × Nat × CState :=
  match syncPhase st (generateCacheKey hash sub) now ttl with
  | (.cached r, st1) => (r, 0, st1)
  | (.joined eid, st1) => (promiseVal eid, 0, st1)
  | (.started _, st1) =>
    (settleResult exec now, 1,
      settleState st1 (generateCacheKey hash sub) (settleResult exec now))

/-- Condition for the cached-entry fast path not to fire: no entry, or an
entry at least `ttl` old. -/
def cacheMissOrStale (e : Option ExecutionResult) (now ttl : Int) : Prop :=
  match e with
  | none => True
  | some r => ttl ≤ now - r.timestamp

/-! ## Concurrent-arrival harness for the single-flight property

The sidecar runs on the single-threaded JS event loop: the synchronous
prefix of `executeWithDeduplication` (cache probe, pending probe, executor
invocation and pending registration) runs without interleaving, and
settlement happens strictly later.  N concurrent callers with the same key
are therefore modelled as N consecutive synchronous prefixes followed by
one settlement; joiners then receive the settled value of the promise they
awaited. -/

/-- Run the synchronous prefixes of `n` concurrent callers in arrival
order. -/
def syncRuns (st : CState) (key : String) (now ttl : Int) :
    Nat → List SyncOutcome × CState
  | 0 => ([], st)
  | Nat.succ n =>
    let p := syncPhase st key now ttl
    let q := syncRuns p.2 key now ttl n
    (p.1 :: q.1, q.2)

/-- Number of callers that invoked the executor. -/
def countStarted (os : List SyncOutcome) : Nat :=
  (os.filter (fun o => match o with | .started _ => true | _ => false)).length

/-- Result ultimately delivered to each caller once the (unique) execution
started by this batch settles: a cache hit returns the cached entry, and
both the starter and the joiners receive the settled promise value. -/
def deliverOutcome (settled : ExecutionResult) : SyncOutcome → ExecutionResult
  | .cached r => r
  | .joined _ => settled
  | .started _ => settled

/-- N concurrent identical callers: synchronous prefixes in arrival order,
then settlement of the batch execution (if one was started), then delivery
to every caller. -/
def runConcurrent (st : CState) (key : String) (now ttl : Int) (n : Nat)
    (exec : Except String ExecutionResult) :
    List ExecutionResult × Nat × CState :=
  let p := syncRuns st key now ttl n
  let settled := settleResult exec now
  let st2 := if countStarted p.1 > 0 then settleState p.2 key settled else p.2
  (p.1.map (deliverOutcome settled), countStarted p.1, st2)

/-! ## Claims C5, C6 and C2: cache hit, error caching, single flight -/

/-- Shared fast-path lemma: a live cached entry (age strictly below the
TTL) is returned unchanged, with no executor invocation and no state
change. -/
theorem dedup_cache_hit_aux (hash : String → String)
    (st : CState) (sub : CacheableSubscription) (now ttl : Int)
    (exec : Except String ExecutionResult) (promiseVal : Nat → ExecutionResult)
    (r : ExecutionResult)
    (hr : alookup st.cache (generateCacheKey hash sub) = some r)
    (hfresh : now - r.timestamp < ttl) :
    executeWithDeduplication hash st sub now ttl exec promiseVal = (r, 0, st) := by
  unfold executeWithDeduplication syncPhase
  rw [hr]
  simp [hfresh]

/-- C5: a live cached entry (age strictly below the TTL) is returned
unchanged, with no executor invocation and no state change. -/
theorem executeWithDeduplication_cache_hit (hash : String → String)
    (st : CState) (sub : CacheableSubscription) (now ttl : Int)
    (exec : Except String ExecutionResult) (promiseVal : Nat → ExecutionResult)
    (r : ExecutionResult)
    (hr : alookup st.cache (generateCacheKey hash sub) = some r)
    (hfresh : now - r.timestamp < ttl) :
    executeWithDeduplication hash st sub now ttl exec promiseVal = (r, 0, st) :=
  dedup_cache_hit_aux hash st sub now ttl exec promiseVal r hr hfresh

/-- Witness for C5: a concrete state holding a fresh entry for the key. -/
theorem executeWithDeduplication_cache_hit_witness :
    executeWithDeduplication (fun s => s)
      ⟨[(generateCacheKey (fun s => s) ⟨"subscription Q", none, none, none⟩,
         ⟨none, none, 990⟩)], [], 0⟩
      ⟨"subscription Q", none, none, none⟩ 1000 5000 (.error "boom") (fun _ => ⟨none, none, 0⟩)
      = (⟨none, none, 990⟩, 0,
        ⟨[(generateCacheKey (fun s => s) ⟨"subscription Q", none, none, none⟩,
           ⟨none, none, 990⟩)], [], 0⟩) :=
  executeWithDeduplication_cache_hit (fun s => s) _ _ 1000 5000 _ _ ⟨none, none, 990⟩
    (by simp [alookup, List.find?]) (by decide)

/-- C6: when the executor rejects, the call resolves (rather than
rejecting) with a `null`-data result carrying exactly one
`EXECUTION_ERROR` error; that result is cached under the subscription
key, and any later call within the TTL window returns the same error
result without invoking its executor. -/
theorem executeWithDeduplication_error_cached (hash : String → String)
    (st : CState) (sub : CacheableSubscription) (now ttl : Int) (msg : String)
    (promiseVal : Nat → ExecutionResult)
    (hmiss : cacheMissOrStale (alookup st.cache (generateCacheKey hash sub)) now ttl)
    (hnp : alookup st.pending (generateCacheKey hash sub) = none) :
    ∃ st2 : CState,
      executeWithDeduplication hash st sub now ttl (.error msg) promiseVal
        = (execErrorResult msg now, 1, st2)
      ∧ alookup st2.cache (generateCacheKey hash sub) = some (execErrorResult msg now)
      ∧ ∀ (now2 : Int) (exec2 : Except String ExecutionResult)
          (pv2 : Nat → ExecutionResult), now2 - now < ttl →
          executeWithDeduplication hash st2 sub now2 ttl exec2 pv2
            = (execErrorResult msg now, 0, st2) := by
  refine ⟨settleState ⟨st.cache, aset st.pending (generateCacheKey hash sub) st.nextId,
    st.nextId + 1⟩ (generateCacheKey hash sub) (execErrorResult msg now), ?_, ?_, ?_⟩
  · unfold executeWithDeduplication syncPhase pendingPhase
    unfold cacheMissOrStale at hmiss
    rcases he : alookup st.cache (generateCacheKey hash sub) with _ | r
    · rw [hnp]
      rfl
    · rw [he] at hmiss
      have : ¬ (now - r.timestamp < ttl) := by omega
      simp only [this, if_false, reduceIte]
      rw [hnp]
      rfl
  · exact alookup_aset_self _ _ _
  · intro now2 exec2 pv2 hwin
    exact dedup_cache_hit_aux hash _ sub now2 ttl exec2 pv2 _
      (alookup_aset_self _ _ _) (by simp [execErrorResult]; omega)

/-- Witness for C6: a rejecting executor on an empty cache. -/
theorem executeWithDeduplication_error_cached_witness :
    ∃ st2 : CState,
      executeWithDeduplication (fun s => s) ⟨[], [], 0⟩
          ⟨"subscription Q", none, none, none⟩ 1000 5000 (.error "boom")
          (fun _ => ⟨none, none, 0⟩)
        = (execErrorResult "boom" 1000, 1, st2)
      ∧ alookup st2.cache
          (generateCacheKey (fun s => s) ⟨"subscription Q", none, none, none⟩)
          = some (execErrorResult "boom" 1000)
      ∧ ∀ (now2 : Int) (exec2 : Except String ExecutionResult)
          (pv2 : Nat → ExecutionResult), now2 - 1000 < 5000 →
          executeWithDeduplication (fun s => s) st2
            ⟨"subscription Q", none, none, none⟩ now2 5000 exec2 pv2
            = (execErrorResult "boom" 1000, 0, st2) :=
  executeWithDeduplication_error_cached (fun s => s) ⟨[], [], 0⟩
    ⟨"subscription Q", none, none, none⟩ 1000 5000 "boom" (fun _ => ⟨none, none, 0⟩)
    (by simp [alookup, cacheMissOrStale]) (by simp [alookup])

theorem syncPhase_pending_join (st : CState) (key : String) (now ttl : Int)
    (eid : Nat)
    (hmiss : cacheMissOrStale (alookup st.cache key) now ttl)
    (hp : alookup st.pending key = some eid) :
    syncPhase st key now ttl = (.joined eid, st) := by
  unfold syncPhase pendingPhase
  unfold cacheMissOrStale at hmiss
  rcases he : alookup st.cache key with _ | r
  · rw [hp]
  · rw [he] at hmiss
    have : ¬ (now - r.timestamp < ttl) := by omega
    simp only [this, if_false, reduceIte]
    rw [hp]

theorem syncRuns_all_join (key : String) (now ttl : Int) (eid : Nat) :
    ∀ (m : Nat) (st : CState),
    cacheMissOrStale (alookup st.cache key) now ttl →
    alookup st.pending key = some eid →
    syncRuns st key now ttl m = (List.replicate m (.joined eid), st) := by
  intro m
  induction m with
  | zero => intro st _ _; rfl
  | succ n ih =>
    intro st hmiss hp
    unfold syncRuns
    simp only [syncPhase_pending_join st key now ttl eid hmiss hp]
    simp [ih st hmiss hp, List.replicate_succ]

/-- C2: N callers whose synchronous phases all run before the execution
settles (the concurrent-arrival scenario), starting from a state with no
live cache entry and no pending execution for the key, cause exactly one
executor invocation, and every caller receives the same settled result. -/
theorem executeWithDeduplication_single_flight (hash : String → String)
    (st : CState) (sub : CacheableSubscription) (now ttl : Int) (n : Nat)
    (exec : Except String ExecutionResult)
    (hn : 0 < n)
    (hmiss : cacheMissOrStale (alookup st.cache (generateCacheKey hash sub)) now ttl)
    (hnp : alookup st.pending (generateCacheKey hash sub) = none) :
    (runConcurrent st (generateCacheKey hash sub) now ttl n exec).2.1 = 1
    ∧ (runConcurrent st (generateCacheKey hash sub) now ttl n exec).1
        = List.replicate n (settleResult exec now) := by
  obtain ⟨m, rfl⟩ : ∃ m, n = m + 1 := ⟨n - 1, by omega⟩
  have hfirst : syncPhase st (generateCacheKey hash sub) now ttl
      = (.started st.nextId,
        ⟨st.cache, aset st.pending (generateCacheKey hash sub) st.nextId,
          st.nextId + 1⟩) := by
    unfold syncPhase pendingPhase
    unfold cacheMissOrStale at hmiss
    rcases he : alookup st.cache (generateCacheKey hash sub) with _ | r
    · rw [hnp]
    · rw [he] at hmiss
      have : ¬ (now - r.timestamp < ttl) := by omega
      simp only [this, if_false, reduceIte]
      rw [hnp]
  have hrest := syncRuns_all_join (generateCacheKey hash sub) now ttl st.nextId m
    ⟨st.cache, aset st.pending (generateCacheKey hash sub) st.nextId, st.nextId + 1⟩
    hmiss (alookup_aset_self _ _ _)
  have hruns : syncRuns st (generateCacheKey hash sub) now ttl (m + 1)
      = (.started st.nextId :: List.replicate m (.joined st.nextId),
        ⟨st.cache, aset st.pending (generateCacheKey hash sub) st.nextId,
          st.nextId + 1⟩) := by
    unfold syncRuns
    simp only [hfirst]
    simp [hrest]
  constructor
  · simp only [runConcurrent, hruns, countStarted]
    simp [List.filter_replicate]
  · simp only [runConcurrent, hruns]
    simp [deliverOutcome, List.map_replicate, List.replicate_succ]

/-- Witness for C2: three concurrent callers on an empty cache produce one
invocation and three copies of the same result. -/
theorem executeWithDeduplication_single_flight_witness :
    (runConcurrent ⟨[], [], 0⟩
        (generateCacheKey (fun s => s) ⟨"subscription Q", none, none, none⟩)
        1000 5000 3 (.ok ⟨none, none, 0⟩)).2.1 = 1
    ∧ (runConcurrent ⟨[], [], 0⟩
        (generateCacheKey (fun s => s) ⟨"subscription Q", none, none, none⟩)
        1000 5000 3 (.ok ⟨none, none, 0⟩)).1
        = List.replicate 3 (settleResult (.ok ⟨none, none, 0⟩) 1000) :=
  executeWithDeduplication_single_flight (fun s => s) ⟨[], [], 0⟩
    ⟨"subscription Q", none, none, none⟩ 1000 5000 3 (.ok ⟨none, none, 0⟩)
    (by decide) (by simp [alookup, cacheMissOrStale]) (by simp [alookup])

/-! ## Subscription validation (http.ts, lines 432-496)

The `graphql` library functions `parse` and `getOperationAST` are external
to the repository; `parse` results are therefore taken as an input
(`Except` of the parser message and the document) and `getOperationAST` is
modelled after its documented behaviour on the parsed document. -/

/-- Variable definition of an operation: name and whether its declared type
is `NonNullType`. -/
structure VarDef where
  name : String
  nonNull : Bool
deriving DecidableEq

/-- Operation definition of a parsed GraphQL document; `operation` is the
operation kind string (`query`, `mutation` or `subscription`). -/
structure Operation where
  operation : String
  name : Option String
  variableDefinitions : List VarDef
deriving DecidableEq

/-- Parsed document: its operation definitions in order. -/
abbrev Document := List Operation

/-- Model of `getOperationAST(document, operationName)` from `graphql`:
with no requested name it returns the unique operation (and `null` if the
document has several); with a name it returns the first operation so
named. -/
def getOperationAST (doc : Document) : Option String → Option Operation
  | none => match doc with
    | [op] => some op
    | _ => none
  | some n => doc.find? (fun op => op.name == some n)

/-- Validation error with the message built by `validateSubscription`. -/
structure ValError where
  message : String
deriving DecidableEq

/-- Result of `validateSubscription`. -/
structure ValidationResult where
  isValid : Bool
  errors : List ValError
deriving DecidableEq

/-- Message of the `VARIABLE_REQUIRED` error for one variable. -/
def varRequiredError (n : String) : ValError :=
  ⟨"Variable \"$" ++ n ++ "\" of required type was not provided."⟩

/-- Property names inherited by every plain JS object from
`Object.prototype` (the prototype of objects produced by `JSON.parse` and
of the `\x7b\x7d` fallback). -/
def objectPrototypeNames : List String :=
  ["constructor", "hasOwnProperty", "isPrototypeOf", "propertyIsEnumerable",
   "toLocaleString", "toString", "valueOf", "__defineGetter__",
   "__defineSetter__", "__lookupGetter__", "__lookupSetter__", "__proto__"]

/-- Model of the JS `in` operator on a plain object with the given own
keys: `in` consults the whole prototype chain, so names of
`Object.prototype` members are found even when they are not own keys. -/
def jsInObject (ownKeys : List String) (name : String) : Bool :=
  ownKeys.contains name || objectPrototypeNames.contains name

/-- Model of `validateSubscription` (http.ts, lines 432-496).  `parseResult`
is the outcome of `parse(query)` (`.error` carries the parser message);
`provided` is the own-key set of `graphqlRequest.variables`, `none` when
the request carries no variables object.  The required-variable test at
line 470 is `varName in providedVariables`, the JS `in` operator —
modelled by `jsInObject`, prototype chain included. -/
def validateSubscription (parseResult : Except String Document)
    (operationName : Option String) (provided : Option (List String)) :
    ValidationResult :=
  match parseResult with
  | .error msg => ⟨false, [⟨"GraphQL syntax error: " ++ msg⟩]⟩
  | .ok doc =>
    match getOperationAST doc operationName with
    | none =>
      ⟨false, [⟨"Operation \"" ++
        (match operationName with
         | some n => if n = "" then "unnamed" else n
         | none => "unnamed") ++ "\" not found in query"⟩]⟩
    | some op =>
      if op.operation ≠ "subscription" then
        ⟨false, [⟨"Operation must be a subscription, got " ++ op.operation⟩]⟩
      else
        let providedKeys := provided.getD []
        let missingVariables := (op.variableDefinitions.filter
          (fun vd => vd.nonNull && !(jsInObject providedKeys vd.name))).map
          (fun vd => vd.name)
        if missingVariables.isEmpty then ⟨true, []⟩
        else ⟨false, missingVariables.map varRequiredError⟩

/-- Observable outcome of `processSSESubscription` (http.ts, lines
501-612): the HTTP status written, whether the SSE stream headers were
written, whether a subscription was registered with the manager, and the
JSON error body (for the 400 branch). -/
structure SSEOutcome where
  status : Nat
  sseHeadersWritten : Bool
  subscriptionCreated : Bool
  errorBody : List ValError
deriving DecidableEq

/-- Model of `processSSESubscription` (http.ts, lines 501-612): validation
runs first; on failure the handler writes a single 400 JSON response and
returns without SSE headers or registry state; on success it writes the
SSE headers and attempts to create the subscription (`createOk` tells
whether `subscriptionManager.createSubscription` succeeded). -/
def processSSESubscription (parseResult : Except String Document)
    (operationName : Option String) (provided : Option (List String))
    (createOk : Bool) : SSEOutcome :=
  let validation := validateSubscription parseResult operationName provided
  if validation.isValid then ⟨200, true, createOk, []⟩
  else ⟨400, false, false, validation.errors⟩

/-! ## Claim C4: non-subscription operations are rejected before any
stream state is created -/

/-- C4: an operation of any kind other than `subscription` (for instance a
query) fails validation with one error naming the actual kind, and the
pipeline answers 400 with that JSON error body, writes no SSE headers and
creates no subscription. -/
theorem processSSESubscription_rejects_non_subscription
    (doc : Document) (operationName : Option String)
    (provided : Option (List String)) (createOk : Bool) (op : Operation)
    (hget : getOperationAST doc operationName = some op)
    (hkind : op.operation ≠ "subscription") :
    validateSubscription (.ok doc) operationName provided
      = ⟨false, [⟨"Operation must be a subscription, got " ++ op.operation⟩]⟩
    ∧ processSSESubscription (.ok doc) operationName provided createOk
      = ⟨400, false, false,
          [⟨"Operation must be a subscription, got " ++ op.operation⟩]⟩ := by
  have hval : validateSubscription (.ok doc) operationName provided
      = ⟨false, [⟨"Operation must be a subscription, got " ++ op.operation⟩]⟩ := by
    unfold validateSubscription
    simp only [hget]
    simp [hkind]
  refine ⟨hval, ?_⟩
  unfold processSSESubscription
  rw [hval]
  rfl

/-- Witness for C4: a single anonymous query operation. -/
theorem processSSESubscription_rejects_non_subscription_witness :
    validateSubscription (.ok [⟨"query", none, []⟩]) none none
      = ⟨false, [⟨"Operation must be a subscription, got query"⟩]⟩
    ∧ processSSESubscription (.ok [⟨"query", none, []⟩]) none none true
      = ⟨400, false, false, [⟨"Operation must be a subscription, got query"⟩]⟩ :=
  processSSESubscription_rejects_non_subscription [⟨"query", none, []⟩] none none
    true ⟨"query", none, []⟩ (by decide) (by decide)

/-! ## Claim C7: all missing required variables are reported -/

/-- C7 (code bug): the source tests `varName in providedVariables`
(http.ts line 470), and the JS `in` operator consults the prototype chain,
so a required variable named after an `Object.prototype` member — here
`toString` — counts as provided even when the variables mapping is empty:
validation passes and reports nothing, although the set of non-nullable
variables with no matching key in the mapping is nonempty.  The second
conjunct shows an ordinary name in the same position is reported, as the
claim demands for all names. -/
theorem validateSubscription_prototype_chain_leak :
    validateSubscription (.ok [⟨"subscription", none, [⟨"toString", true⟩]⟩])
        none (some []) = ⟨true, []⟩
    ∧ validateSubscription (.ok [⟨"subscription", none, [⟨"myVar", true⟩]⟩])
        none (some []) = ⟨false, [varRequiredError "myVar"]⟩ :=
  ⟨by decide, by decide⟩

/-! ## Webhook ingestion gate (http.ts, lines 785-946)

The HMAC-SHA256 digest is external to the repository and is passed as a
function `hmac : secret → body → byte list`; `hexEncode` models
`digest('hex')` and `nodeHexDecode` models `Buffer.from(_, 'hex')`, which
decodes hex pairs until the first invalid pair. -/

/-- Relevant process environment. -/
structure Env where
  nodeEnv : Option String
  webhookSecret : Option String
deriving DecidableEq

/-- The built-in development secret (http.ts, line 905). -/
def devDefaultSecret : String := "dev-secret-key-change-in-production"

/-- Model of `process.env.WEBHOOK_SECRET || 'dev-secret-key-change-in-production'`
(an unset or empty variable is falsy). -/
def effectiveSecret (env : Env) : String :=
  match env.webhookSecret with
  | some s => if s = "" then devDefaultSecret else s
  | none => devDefaultSecret

/-- Development bypass of signature validation (http.ts, lines 908-911). -/
def devBypass (env : Env) : Bool :=
  (env.nodeEnv != some "production") && (effectiveSecret env == devDefaultSecret)

/-- Model of JS `String.prototype.split('=')`. -/
def splitEq : List Char → List (List Char)
  | [] => [[]]
  | '=' :: t => [] :: splitEq t
  | c :: t =>
    match splitEq t with
    | [] => [[c]]
    | h :: r => (c :: h) :: r

/-- Hex rendering of a byte list, as produced by `digest('hex')`. -/
def hexEncode (bytes : List Nat) : List Char :=
  bytes.flatMap (fun b => [hexDigitC (b / 16), hexDigitC (b % 16)])

/-- Model of `Buffer.from(s, 'hex')`: decode hex pairs (either letter case)
until the first invalid or incomplete pair. -/
def nodeHexDecode : List Char → List Nat
  | a :: b :: rest =>
    match fromHexDigit a, fromHexDigit b with
    | some x, some y => (x * 16 + y) :: nodeHexDecode rest
    | _, _ => []
  | _ => []

theorem nodeHexDecode_hexEncode (bytes : List Nat)
    (hb : ∀ b ∈ bytes, b < 256) : nodeHexDecode (hexEncode bytes) = bytes := by
  induction bytes with
  | nil => rfl
  | cons b t ih =>
    have hblt : b < 256 := hb b (List.mem_cons_self b t)
    have h1 : b / 16 < 16 := by omega
    have h2 : b % 16 < 16 := by omega
    simp only [hexEncode, List.flatMap_cons, List.cons_append, List.nil_append]
    simp only [nodeHexDecode, fromHexDigit_hexDigitC h1, fromHexDigit_hexDigitC h2]
    rw [show b / 16 * 16 + b % 16 = b by omega]
    rw [show (t.flatMap fun b => [hexDigitC (b / 16), hexDigitC (b % 16)])
        = hexEncode t from rfl]
    rw [ih (fun x hx => hb x (List.mem_cons_of_mem b hx))]

/-- Signature check of `validateWebhookSignature` after the bypass
(http.ts, lines 913-945): the destructuring
`[algorithm, signature] = signatureHeader.split('=')`, the format test
`algorithm !== 'sha256' || !signature`, and the length-guarded
`timingSafeEqual` of `Buffer.from(signature, 'hex')` against
`Buffer.from(expectedHex, 'hex')` (modelled as list equality — the timing
behaviour itself is outside the embedding). -/
def checkSignatureHeader (digest : List Nat) (h : String) : Bool :=
  match (splitEq h.data)[1]? with
  | none => false
  | some signature =>
    if (splitEq h.data).headD [] ≠ "sha256".data ∨ signature = [] then false
    else
      if (nodeHexDecode signature).length ≠ (nodeHexDecode (hexEncode digest)).length
      then false
      else nodeHexDecode signature == nodeHexDecode (hexEncode digest)

/-- Model of `validateWebhookSignature` (http.ts, lines 903-946).  `hmac`
stands for `createHmac('sha256', secret).update(body).digest()` as a byte
list; the expected hex signature is its `hexEncode`. -/
def validateWebhookSignature (hmac : String → String → List Nat) (env : Env)
    (header : Option String) (body : String) : Bool :=
  if devBypass env then true
  else
    match header with
    | none => false
    | some h => checkSignatureHeader (hmac (effectiveSecret env) body) h

/-- Decoded webhook payload fields used by `handleWebhookEvent`.  A field
that is absent (or, for `channels`, not an array) is `none`; `node_type`,
`action` and `node_id` are modelled as strings (the handler only tests
their truthiness and interpolates them). -/
structure WebhookEventData where
  node_type : Option String
  action : Option String
  node_id : Option String
  channels : Option (List String)

/-- JS falsiness of an optional string field (`!field`). -/
def jsFalsyStr : Option String → Bool
  | none => true
  | some s => s == ""

/-- Observable outcome of `handleWebhookEvent`: HTTP status and the list of
channels published to. -/
structure WebhookOutcome where
  status : Nat
  published : List String
deriving DecidableEq

/-- Model of `handleWebhookEvent` (http.ts, lines 785-898).  `parseJson`
stands for `JSON.parse` on the raw body (`none` models a parse exception,
which the catch branch turns into a 500); `redisUp` tells whether
`this.redisClient` is initialized (the constructor always initializes it).
On success every listed channel is published to (line 864; per-channel
failures do not change the response). -/
def handleWebhookEvent (parseJson : String → Option WebhookEventData)
    (hmac : String → String → List Nat) (env : Env) (redisUp : Bool)
    (header : Option String) (body : String) : WebhookOutcome :=
  match parseJson body with
  | none => ⟨500, []⟩
  | some eventData =>
    if ¬ validateWebhookSignature hmac env header body then ⟨401, []⟩
    else if jsFalsyStr eventData.node_type || jsFalsyStr eventData.action ||
        jsFalsyStr eventData.node_id then ⟨400, []⟩
    else if ¬ redisUp then ⟨500, []⟩
    else
      match eventData.channels with
      | none => ⟨400, []⟩
      | some [] => ⟨400, []⟩
      | some channels => ⟨200, channels⟩

/-! ## Claims C3, C8 and C10: webhook rejection and the development bypass -/

/-- Signature rejection condition, stated over the digest bytes: the header
is missing, or its first two `=`-separated fields are not
(`sha256`, nonempty signature), or the signature does not hex-decode to the
digest bytes. -/
def headerSigMismatch (digest : List Nat) (header : Option String) : Prop :=
  match header with
  | none => True
  | some h =>
    (splitEq h.data).headD [] ≠ "sha256".data
    ∨ (splitEq h.data)[1]? = none
    ∨ (splitEq h.data)[1]? = some []
    ∨ ∀ sig, (splitEq h.data)[1]? = some sig → nodeHexDecode sig ≠ digest

theorem checkSignatureHeader_false (digest : List Nat) (h : String)
    (hbytes : ∀ b ∈ digest, b < 256)
    (hmm : (splitEq h.data).headD [] ≠ "sha256".data
      ∨ (splitEq h.data)[1]? = none
      ∨ (splitEq h.data)[1]? = some []
      ∨ ∀ sig, (splitEq h.data)[1]? = some sig → nodeHexDecode sig ≠ digest) :
    checkSignatureHeader digest h = false := by
  unfold checkSignatureHeader
  rcases hget : (splitEq h.data)[1]? with _ | sig
  · rfl
  · by_cases halg : (splitEq h.data).headD [] = "sha256".data
    · by_cases hsig : sig = []
      · simp [hsig]
      · have hdec : nodeHexDecode sig ≠ digest := by
          rcases hmm with hc | hc | hc | hc
          · exact absurd halg hc
          · rw [hget] at hc; exact absurd hc (by simp)
          · rw [hget] at hc; exact absurd (Option.some.inj hc) hsig
          · exact hc sig hget
        rw [nodeHexDecode_hexEncode digest hbytes]
        simp only [halg, hsig, ne_eq, not_false_eq_true, or_false, not_true_eq_false,
          if_false, reduceIte, false_or]
        by_cases hlen : (nodeHexDecode sig).length = digest.length
        · simp only [hlen, not_true_eq_false, if_false, reduceIte]
          exact beq_eq_false_iff_ne.mpr hdec
        · simp [hlen]
    · exact if_pos (Or.inl halg)

theorem validateWebhookSignature_false_of_mismatch
    (hmac : String → String → List Nat) (env : Env) (header : Option String)
    (body : String)
    (hnb : devBypass env = false)
    (hbytes : ∀ b ∈ hmac (effectiveSecret env) body, b < 256)
    (hmm : headerSigMismatch (hmac (effectiveSecret env) body) header) :
    validateWebhookSignature hmac env header body = false := by
  unfold validateWebhookSignature
  rw [hnb]
  simp only [Bool.false_eq_true, if_false, reduceIte]
  rcases header with _ | h
  · rfl
  · exact checkSignatureHeader_false _ h hbytes hmm

/-- C3 (amended): when the development bypass is off and the body parses as
JSON, a webhook request whose signature header is missing, malformed (in
the sense of the `split('=')` parse the code performs), or whose signature
does not hex-decode to the HMAC digest bytes of the exact raw body, is
answered with 401 and publishes to no channel. -/
theorem handleWebhookEvent_rejects_bad_signature
    (parseJson : String → Option WebhookEventData)
    (hmac : String → String → List Nat) (env : Env) (redisUp : Bool)
    (header : Option String) (body : String) (ev : WebhookEventData)
    (hparse : parseJson body = some ev)
    (hnb : devBypass env = false)
    (hbytes : ∀ b ∈ hmac (effectiveSecret env) body, b < 256)
    (hmm : headerSigMismatch (hmac (effectiveSecret env) body) header) :
    handleWebhookEvent parseJson hmac env redisUp header body = ⟨401, []⟩ := by
  unfold handleWebhookEvent
  rw [hparse]
  rw [validateWebhookSignature_false_of_mismatch hmac env header body hnb hbytes hmm]
  rfl

/-- Witness for C3: in production configuration, a request with no
signature header at all is rejected with 401 and no publish. -/
theorem handleWebhookEvent_rejects_bad_signature_witness :
    handleWebhookEvent
      (fun _ => some ⟨some "post", some "UPDATE", some "5", some ["chan"]⟩)
      (fun _ _ => [171]) ⟨some "production", some "s3cret"⟩ true none "body"
      = ⟨401, []⟩ :=
  handleWebhookEvent_rejects_bad_signature
    (fun _ => some ⟨some "post", some "UPDATE", some "5", some ["chan"]⟩)
    (fun _ _ => [171]) ⟨some "production", some "s3cret"⟩ true none "body"
    ⟨some "post", some "UPDATE", some "5", some ["chan"]⟩
    rfl (by decide) (by decide) trivial

/-- C3 (counterexample to the claim as stated): a header that is not of the
form `sha256=<hex>` — here `sha256=ab=junk` — is accepted whenever the part
before the second `=` matches the digest, because the destructuring of
`split('=')` silently drops everything after it: the gateway answers 200
and publishes.  (The final conjunct certifies that the header value after
`sha256=` is not a hex string.) -/
theorem handleWebhookEvent_malformed_header_accepted :
    handleWebhookEvent
      (fun _ => some ⟨some "post", some "UPDATE", some "5", some ["chan"]⟩)
      (fun _ _ => [171]) ⟨some "production", some "s3cret"⟩ true
      (some "sha256=ab=junk") "body"
      = ⟨200, ["chan"]⟩
    ∧ ∀ l : List Char, "sha256=ab=junk".data = "sha256=".data ++ l →
        ¬ (∀ c ∈ l, (fromHexDigit c).isSome) := by
  refine ⟨by decide, ?_⟩
  intro l hl
  have h14 : "sha256=ab=junk".data
      = 's' :: 'h' :: 'a' :: '2' :: '5' :: '6' :: '=' :: 'a' :: 'b' :: '=' ::
        'j' :: 'u' :: 'n' :: 'k' :: [] := rfl
  have h7 : "sha256=".data = 's' :: 'h' :: 'a' :: '2' :: '5' :: '6' :: '=' :: [] := rfl
  rw [h14, h7] at hl
  simp only [List.cons_append, List.nil_append, List.cons.injEq, true_and] at hl
  rw [← hl]
  decide

/-- C8: a webhook that passes signature validation and carries truthy
`node_type`, `action` and `node_id`, but whose `channels` field is missing,
not an array, or an empty array, is answered with 400 and publishes to no
channel. -/
theorem handleWebhookEvent_missing_channels
    (parseJson : String → Option WebhookEventData)
    (hmac : String → String → List Nat) (env : Env)
    (header : Option String) (body : String) (ev : WebhookEventData)
    (hparse : parseJson body = some ev)
    (hsig : validateWebhookSignature hmac env header body = true)
    (ht : jsFalsyStr ev.node_type = false) (ha : jsFalsyStr ev.action = false)
    (hi : jsFalsyStr ev.node_id = false)
    (hch : ev.channels = none ∨ ev.channels = some []) :
    handleWebhookEvent parseJson hmac env true header body = ⟨400, []⟩ := by
  unfold handleWebhookEvent
  rw [hparse, hsig]
  simp only [not_true_eq_false, if_false, reduceIte, ht, ha, hi, Bool.or_self,
    Bool.false_or, Bool.or_false, not_true, not_false_eq_true]
  rcases hch with h | h <;> simp [h]

/-- Witness for C8: development configuration (signature validation
passes), all three required fields present, `channels` absent. -/
theorem handleWebhookEvent_missing_channels_witness :
    handleWebhookEvent (fun _ => some ⟨some "post", some "UPDATE", some "5", none⟩)
      (fun _ _ => []) ⟨none, none⟩ true none
      "\x7b\"node_type\":\"post\",\"action\":\"UPDATE\",\"node_id\":\"5\"\x7d"
      = ⟨400, []⟩ :=
  handleWebhookEvent_missing_channels
    (fun _ => some ⟨some "post", some "UPDATE", some "5", none⟩)
    (fun _ _ => []) ⟨none, none⟩ none
    "\x7b\"node_type\":\"post\",\"action\":\"UPDATE\",\"node_id\":\"5\"\x7d"
    ⟨some "post", some "UPDATE", some "5", none⟩
    rfl (by decide) (by decide) (by decide) (by decide) (Or.inl rfl)

/-- C10: with `NODE_ENV` different from `production` and `WEBHOOK_SECRET`
unset, the built-in development secret is in effect and
`validateWebhookSignature` accepts every request, so the webhook endpoint
never answers 401 in that configuration. -/
theorem validateWebhookSignature_dev_bypass (env : Env)
    (hne : env.nodeEnv ≠ some "production") (hs : env.webhookSecret = none) :
    (∀ (hmac : String → String → List Nat) (header : Option String)
      (body : String), validateWebhookSignature hmac env header body = true)
    ∧ ∀ (parseJson : String → Option WebhookEventData)
        (hmac : String → String → List Nat) (redisUp : Bool)
        (header : Option String) (body : String),
        (handleWebhookEvent parseJson hmac env redisUp header body).status ≠ 401 := by
  have hbp : devBypass env = true := by
    unfold devBypass effectiveSecret
    rw [hs]
    simp [hne]
  have hval : ∀ (hmac : String → String → List Nat) (header : Option String)
      (body : String), validateWebhookSignature hmac env header body = true := by
    intro hmac header body
    unfold validateWebhookSignature
    simp [hbp]
  refine ⟨hval, ?_⟩
  intro parseJson hmac redisUp header body
  unfold handleWebhookEvent
  rcases hp : parseJson body with _ | ev
  · simp
  · rw [hval hmac header body]
    simp only [not_true_eq_false, if_false, reduceIte]
    by_cases h1 : (jsFalsyStr ev.node_type || jsFalsyStr ev.action ||
        jsFalsyStr ev.node_id) = true
    · simp [h1]
    · simp only [h1, if_false, reduceIte]
      by_cases h2 : redisUp
      · simp only [h2, not_true_eq_false, if_false, reduceIte]
        rcases ev.channels with _ | chans
        · simp
        · rcases chans with _ | ⟨c, cs⟩ <;> simp
      · simp [h2]

/-- Witness for C10: the empty development environment accepts an arbitrary
body with no signature, and the handler does not answer 401. -/
theorem validateWebhookSignature_dev_bypass_witness :
    validateWebhookSignature (fun _ _ => []) ⟨none, none⟩ none "anything" = true
    ∧ (handleWebhookEvent (fun _ => none) (fun _ _ => []) ⟨none, none⟩ true
        none "anything").status ≠ 401 :=
  ⟨(validateWebhookSignature_dev_bypass ⟨none, none⟩ (by decide) rfl).1
      (fun _ _ => []) none "anything",
    (validateWebhookSignature_dev_bypass ⟨none, none⟩ (by decide) rfl).2
      (fun _ => none) (fun _ _ => []) true none "anything"⟩
